import Mathlib

set_option synthInstance.maxHeartbeats 4000000

/-!
Shallow embedding of the taisti entity linker (src/taisti_linker).

Python floats are modelled as rationals, Python dicts keyed by strings or
enum values as insertion-ordered association lists, Python exceptions as an
explicit error type threaded through `Except`.  External collaborators
(spacy normalization, nltk tokenization and tagging, wordnet sense lookup,
the owlready2 ontology view) are parameters of the definitions, exactly at
the interface the source code consumes them.
-/

/-! ### Association-list model of Python dicts

Python 3.7+ dicts preserve insertion order; assigning to an existing key
replaces the value in place without moving the key.  `alookup` models `d[k]`
and `k in d`, `dictInsert` models `d[k] = v`. -/

def alookup [DecidableEq κ] (k : κ) : List (κ × α) → Option α
  | [] => none
  | (k', v) :: rest => if k' = k then some v else alookup k rest

def dictInsert [DecidableEq κ] (k : κ) (v : α) : List (κ × α) → List (κ × α)
  | [] => [(k, v)]
  | (k', v') :: rest =>
      if k' = k then (k, v) :: rest else (k', v') :: dictInsert k v rest

/-! ### String helpers mirroring the Python builtins used by the source -/

/-- Python `str.lower()`. -/
def pyLower (s : String) : String := String.mk (s.data.map Char.toLower)

/-- Python `str.startswith(c)` for a single-character argument. -/
def strHeadIs (s : String) (c : Char) : Bool :=
  match s.data with
  | [] => false
  | d :: _ => d = c

/-- Helper for substring search: does the second list start with the first? -/
def listHasPre [DecidableEq α] : List α → List α → Bool
  | [], _ => true
  | _ :: _, [] => false
  | a :: as, b :: bs => if a = b then listHasPre as bs else false

/-- Helper for substring search: does the second list contain the first as a
contiguous run? -/
def listHasSub [DecidableEq α] (needle : List α) : List α → Bool
  | [] => listHasPre needle []
  | b :: bs => listHasPre needle (b :: bs) || listHasSub needle bs

/-- Python `needle in s` on strings (substring containment). -/
def strContains (s needle : String) : Bool :=
  listHasSub needle.data s.data

/-- Python `str.split()` with no argument: split on whitespace runs and drop
empty pieces (whitespace modelled as the space character). -/
def tokensAux : List Char → List Char → List String
  | [], acc => if acc.isEmpty then [] else [String.mk acc.reverse]
  | c :: rest, acc =>
      if c = ' ' then
        if acc.isEmpty then tokensAux rest []
        else String.mk acc.reverse :: tokensAux rest []
      else tokensAux rest (c :: acc)

def pySplit (s : String) : List String := tokensAux s.data []

/-! ### Data model (src/taisti_linker/commons.py) -/

/-- Common entity types supported by NER and BRAT annotations
(`commons.EntityType`). -/
inductive EntityType where
  | FOOD | UNIT | QUANTITY | PROCESS | COLOR
  | PHYSICAL_QUALITY | DIET | PART | PURPOSE | TASTE
  deriving DecidableEq, Repr

/-- Iteration order of `for entity_type in EntityType` (declaration order). -/
def allEntityTypes : List EntityType :=
  [.FOOD, .UNIT, .QUANTITY, .PROCESS, .COLOR,
   .PHYSICAL_QUALITY, .DIET, .PART, .PURPOSE, .TASTE]

/-- Source of annotations (`commons.AnnotationSource`). -/
inductive AnnotationSource where
  | BRAT | NER | TAISTI_CSV
  deriving DecidableEq, Repr

/-- Common annotation format (`commons.Annotation`).  The Python `end` field
is called `end_` because `end` is a Lean keyword. -/
structure Annotation where
  id : String
  file_id : Int
  start : Int
  end_ : Int
  category : String
  text : String
  source : AnnotationSource
  deriving DecidableEq, Repr

/-- Tuple of ontology entity label and IRI (`commons.LabelWithIRI`).  The
`similarity_representation` field starts as Python `None` (here `none`) and
is lazily filled by the linker; its payload type is the strategy-specific
representation `ρ`. -/
structure LabelWithIRI (ρ : Type) where
  label : String
  iri : String
  normalized_label : String
  similarity_representation : Option ρ := none
  deriving DecidableEq, Repr

/-- Map BRAT/NER category strings to `EntityType`
(`commons.get_entity_type`).  Note the final catch-all: any unrecognized
category string is mapped to `FOOD`. -/
def get_entity_type (category : String) : EntityType :=
  let category := pyLower category
  if strContains category "food"
      ∨ category ∈ ["possible_substite", "example", "trade_name",
                    "excluded", "exclusive"] then .FOOD
  else if category = "unit" then .UNIT
  else if category = "quantity" then .QUANTITY
  else if category = "process" then .PROCESS
  else if category = "color" then .COLOR
  else if category = "physical_quality" then .PHYSICAL_QUALITY
  else if category = "diet" then .DIET
  else if category = "part" then .PART
  else if category = "purpose" then .PURPOSE
  else if category = "taste" then .TASTE
  else .FOOD

/-! ### Python runtime errors that the modelled code can raise -/

inductive PyError where
  | valueError          -- max() of an empty sequence
  | zeroDivisionError   -- division by integer zero
  | typeError           -- ordering comparison involving None
  deriving DecidableEq, Repr

/-! ### Similarity calculator (src/taisti_linker/similarity_calculator.py) -/

inductive SimilarityType where
  | JACCARD | EVERYGRAM | WORDNET
  deriving DecidableEq, Repr

/-- Python truthiness of a set: empty sets are falsy. -/
def setTruthy (s : Finset α) : Bool := s.card != 0

/-- Python truthiness of a list: empty lists are falsy. -/
def listTruthy (l : List α) : Bool := !l.isEmpty

/-- Maximum of a nonempty list of rationals, first element as seed,
mirroring Python `max` over floats. -/
def listMax : List ℚ → ℚ
  | [] => 0
  | x :: xs => xs.foldl max x

/-- Python `max` over a list of float-or-None values.  An empty argument
raises ValueError; a singleton returns its element without comparing; a
longer list containing None raises TypeError when the comparison touches
None, and otherwise returns the numeric maximum. -/
def pyMax : List (Option ℚ) → Except PyError (Option ℚ)
  | [] => .error .valueError
  | [x] => .ok x
  | x :: y :: rest =>
      if (x :: y :: rest).all Option.isSome then
        .ok (some (listMax ((x :: y :: rest).filterMap id)))
      else .error .typeError

/-- Jaccard similarity over token sets (`SimilarityCalculator._jaccard`). -/
def jaccardSim (a b : Finset String) : ℚ :=
  if a.card = 0 ∨ b.card = 0 then 0
  else ((a ∩ b).card : ℚ) / ((a ∪ b).card : ℚ)

/-- Jaccard similarity over everygram sets
(`SimilarityCalculator._everygrams`); the body is identical to `_jaccard`
but the elements are n-grams (token tuples). -/
def everygramSim (a b : Finset (List String)) : ℚ :=
  if a.card = 0 ∨ b.card = 0 then 0
  else ((a ∩ b).card : ℚ) / ((a ∪ b).card : ℚ)

/-- Loop body of `SimilarityCalculator._wordnet`: for each sense in the
first sequence take `max` of its path similarities against the second
sequence; accumulate defined maxima into a sum and a count.
`ps` is the external `path_similarity`, which may return None. -/
def wordnetLoop (ps : Syn → Syn → Option ℚ) (synsets2 : List Syn) :
    List Syn → ℚ → ℕ → Except PyError (ℚ × ℕ)
  | [], score, count => .ok (score, count)
  | s :: rest, score, count =>
      match pyMax (synsets2.map (ps s)) with
      | .error e => .error e
      | .ok (some b) => wordnetLoop ps synsets2 rest (score + b) (count + 1)
      | .ok none => wordnetLoop ps synsets2 rest score count

/-- Wordnet sentence similarity (`SimilarityCalculator._wordnet`).  Note:
`max` of an empty comparison sequence raises ValueError before the
`best_score is not None` guard can run, and `score /= count` raises
ZeroDivisionError when no per-word maximum was defined. -/
def wordnetSim (ps : Syn → Syn → Option ℚ) (synsets1 synsets2 : List Syn) :
    Except PyError ℚ :=
  match wordnetLoop ps synsets2 synsets1 0 0 with
  | .error e => .error e
  | .ok (score, count) =>
      if count = 0 then .error .zeroDivisionError
      else .ok (score / (count : ℚ))

/-- Convert a Penn Treebank tag to a simplified Wordnet tag
(`SimilarityCalculator._penn_to_wn`). -/
def pennToWn (tag : String) : Option String :=
  if strHeadIs tag 'N' then some "n"
  else if strHeadIs tag 'V' then some "v"
  else if strHeadIs tag 'J' then some "a"
  else if strHeadIs tag 'R' then some "r"
  else none

/-- Extract the first synset for a word and POS tag
(`SimilarityCalculator._tagged_to_synset`).  `wnSyn` is the external
`wordnet.synsets` lookup; taking element 0 of an empty result raises, the
`except` clause turns that into None, i.e. `List.head?`. -/
def taggedToSynset (wnSyn : String → String → List Syn)
    (word tag : String) : Option Syn :=
  match pennToWn tag with
  | none => none
  | some wnTag => (wnSyn word wnTag).head?

/-- Jaccard preprocessing (`SimilarityCalculator._jaccard_preprocess`):
optionally normalize, then the set of whitespace tokens. -/
def jaccardPreprocess (normalizer : String → String)
    (text : String) (normalize : Bool) : Finset String :=
  let text := if normalize then normalizer text else text
  (pySplit text).toFinset

/-- All contiguous n-grams of one length over a token list. -/
def ngramsOf (n : ℕ) (ts : List String) : List (List String) :=
  (List.range (ts.length + 1 - n)).map (fun i => (ts.drop i).take n)

/-- All contiguous n-grams of every length from 1 to the token count
(nltk `everygrams`). -/
def everygramsOf (ts : List String) : List (List String) :=
  (List.range ts.length).flatMap (fun k => ngramsOf (k + 1) ts)

/-- Everygram preprocessing (`SimilarityCalculator._everygrams_preprocess`):
optionally normalize, then the set of everygrams of the token list. -/
def everygramsPreprocess (normalizer : String → String)
    (text : String) (normalize : Bool) : Finset (List String) :=
  let text := if normalize then normalizer text else text
  (everygramsOf (pySplit text)).toFinset

set_option linter.unusedVariables false in
/-- Wordnet preprocessing (`SimilarityCalculator._wordnet_preprocess`):
POS-tag the tokenized text (external `posTag`), map each tagged word to its
first synset, and keep the defined ones.  The `normalize` argument is
accepted but never used, and the configured normalizer is never invoked. -/
def wordnetPreprocess (posTag : String → List (String × String))
    (wnSyn : String → String → List Syn)
    (text : String) (normalize : Bool) : List Syn :=
  let tagged := posTag text
  let synsets := tagged.map (fun wt => taggedToSynset wnSyn wt.1 wt.2)
  synsets.filterMap id

/-- Strategy-tagged preprocessed representation (the Python `Any` returned
by `SimilarityCalculator.preprocess`). -/
inductive Represent (Syn : Type) where
  | jset : Finset String → Represent Syn
  | eset : Finset (List String) → Represent Syn
  | wlist : List Syn → Represent Syn
  deriving DecidableEq

/-- Dispatcher `SimilarityCalculator.preprocess`: select the preprocessing
path by similarity type. -/
def preprocessDispatch (simType : SimilarityType)
    (normalizer : String → String)
    (posTag : String → List (String × String))
    (wnSyn : String → String → List Syn)
    (text : String) (normalize : Bool) : Represent Syn :=
  match simType with
  | .JACCARD => .jset (jaccardPreprocess normalizer text normalize)
  | .EVERYGRAM => .eset (everygramsPreprocess normalizer text normalize)
  | .WORDNET => .wlist (wordnetPreprocess posTag wnSyn text normalize)

/-- Transform a textual similarity id into a similarity type
(`SimilarityCalculator.similarity_id_to_type`). -/
def similarity_id_to_type (s : String) : SimilarityType :=
  let s := pyLower s
  if s = "e" then .EVERYGRAM
  else if s = "w" then .WORDNET
  else .JACCARD

/-! ### Entity linker (src/taisti_linker/entity_linker.py)

The linker is modelled generically in the representation type `ρ` of the
configured similarity strategy: `pre` is `similarity_calculator.preprocess`
at its default `normalize=False`, `truthy` is Python truthiness on `ρ`
(the guard is `if not item.similarity_representation`), `calcF` is
`similarity_calculator.calculate`, which for the wordnet strategy can raise.
Invocation counters are carried so that claims about the strategy never or
only lazily being invoked are observable. -/

/-- Result of the candidate scan inside `EntityLinker.link`: the running
best after the loop, the category sub-map after in-place record mutation,
and how many preprocess and score calls the loop performed. -/
structure ScanResult (ρ : Type) where
  best : Option (LabelWithIRI ρ)
  items : List (String × LabelWithIRI ρ)
  preCalls : ℕ
  calcCalls : ℕ
  deriving DecidableEq, Repr

/-- Invocation counters of one `EntityLinker.link` call: preprocess on the
mention text, preprocess on index records, and score computations. -/
structure LinkStats where
  textPre : ℕ
  itemPre : ℕ
  calcCalls : ℕ
  deriving DecidableEq, Repr

/-- Candidate loop of `EntityLinker.link` (the `for _, item in
category_label_mapping.items()` loop).  For each record: recompute and store
the comparison representation when the stored one is Python-falsy (None or
empty), score it against the preprocessed mention text, update the running
best when `score > threshold and score >= max_similarity`, and break out of
the loop when the score is exactly 1.0.  A raising strategy aborts the
whole loop.  The representation chosen for one step is split out as
`scanRep`: the stored one when it is Python-truthy, a freshly recomputed
one otherwise (the Python guard is `if not item.similarity_representation`,
so a stored but empty representation is recomputed as well). -/
def scanRep (pre : String → ρ) (truthy : ρ → Bool)
    (item : LabelWithIRI ρ) : ρ :=
  match item.similarity_representation with
  | some r => if truthy r then r else pre item.normalized_label
  | none => pre item.normalized_label

/-- Preprocess-call cost of one loop step: 1 when the stored representation
is Python-falsy (None or empty) and is therefore recomputed, 0 otherwise. -/
def scanPCost (truthy : ρ → Bool) (item : LabelWithIRI ρ) : ℕ :=
  match item.similarity_representation with
  | some r => if truthy r then 0 else 1
  | none => 1

/-- The record after the lazy-population statement of one loop step. -/
def scanUpd (pre : String → ρ) (truthy : ρ → Bool)
    (item : LabelWithIRI ρ) : LabelWithIRI ρ :=
  { item with similarity_representation := some (scanRep pre truthy item) }

def linkScan (pre : String → ρ) (truthy : ρ → Bool)
    (calcF : ρ → ρ → Except PyError ℚ) (thr : ℚ) (tp : ρ) :
    List (String × LabelWithIRI ρ) → Option (LabelWithIRI ρ) → ℚ →
      Except PyError (ScanResult ρ)
  | [], best, _maxSim => .ok ⟨best, [], 0, 0⟩
  | (k, item) :: rest, best, maxSim =>
      let item' := scanUpd pre truthy item
      match calcF tp (scanRep pre truthy item) with
      | .error e => .error e
      | .ok score =>
          let best' := if thr < score ∧ maxSim ≤ score then some item' else best
          let max' := if thr < score ∧ maxSim ≤ score then score else maxSim
          if score = 1 then
            .ok ⟨best', (k, item') :: rest, scanPCost truthy item, 1⟩
          else
            match linkScan pre truthy calcF thr tp rest best' max' with
            | .error e => .error e
            | .ok res =>
                .ok ⟨res.best, (k, item') :: res.items,
                     scanPCost truthy item + res.preCalls, 1 + res.calcCalls⟩

/-- Per-category label index: `self.normalized_label_mapping`. -/
abbrev LabelMapping (ρ : Type) :=
  List (EntityType × List (String × LabelWithIRI ρ))

/-- Link a text and category to an ontology entity (`EntityLinker.link`).
Returns the decision, the mapping after in-place mutation of the scanned
category sub-map, and the invocation counters.  A category absent from the
mapping returns None before the mention text is ever preprocessed. -/
def link (pre : String → ρ) (truthy : ρ → Bool)
    (calcF : ρ → ρ → Except PyError ℚ) (thr : ℚ)
    (mapping : LabelMapping ρ) (text : String) (et : EntityType) :
    Except PyError (Option (LabelWithIRI ρ) × LabelMapping ρ × LinkStats) :=
  match alookup et mapping with
  | none => .ok (none, mapping, ⟨0, 0, 0⟩)
  | some sub =>
      let tp := pre text
      match linkScan pre truthy calcF thr tp sub none (-1) with
      | .error e => .error e
      | .ok res =>
          .ok (res.best, dictInsert et res.items mapping,
               ⟨1, res.preCalls, res.calcCalls⟩)

/-- Mutable state threaded through one batch run of `link_all`: the label
index (whose records are mutated in place by `link`) and the memo
`self.cache` from normalized mention text to decision. -/
structure BatchState (ρ : Type) where
  mapping : LabelMapping ρ
  cache : List (String × Option (LabelWithIRI ρ))
  deriving DecidableEq, Repr

/-- Exact-match lookup used by the `link_all` fast path: the category's
sub-map entry for the normalized text, when the category has a sub-map. -/
def exactLookup (mapping : LabelMapping ρ) (et : EntityType)
    (ntext : String) : Option (LabelWithIRI ρ) :=
  match alookup et mapping with
  | none => none
  | some sub => alookup ntext sub

/-- Body of the per-annotation loop of `EntityLinker.link_all` (lines
69 to 86): derive the entity type from the category string, normalize the
mention text, take the exact-match fast path when the normalized text is an
index key for the category, otherwise consult the memo and fall back to
`link`, memoizing its decision. -/
def processMention (normalize : String → String) (pre : String → ρ)
    (truthy : ρ → Bool) (calcF : ρ → ρ → Except PyError ℚ) (thr : ℚ)
    (st : BatchState ρ) (ann : Annotation) :
    Except PyError (Option (LabelWithIRI ρ) × BatchState ρ × LinkStats) :=
  let et := get_entity_type ann.category
  let ntext := normalize ann.text
  match exactLookup st.mapping et ntext with
  | some item => .ok (some item, st, ⟨0, 0, 0⟩)
  | none =>
      match alookup ntext st.cache with
      | some decision => .ok (decision, st, ⟨0, 0, 0⟩)
      | none =>
          match link pre truthy calcF thr st.mapping ntext et with
          | .error e => .error e
          | .ok (item, mapping', stats) =>
              .ok (item, ⟨mapping', dictInsert ntext item st.cache⟩, stats)

/-- One CSV row written by `link_all`: the annotation columns followed by
either the linked IRI and label or the NONE markers. -/
structure Row where
  ann : Annotation
  iri : String
  label : String
  deriving DecidableEq, Repr

/-- Rows emitted for one annotation given its decision: a linked row, a
NONE row, or nothing when unlinkable mentions are ignored. -/
def rowsFor (ignore_not_linkable : Bool) (ann : Annotation) :
    Option (LabelWithIRI ρ) → List Row
  | some it => [⟨ann, it.iri, it.label⟩]
  | none => if ignore_not_linkable then [] else [⟨ann, "NONE", "NONE"⟩]

/-- The annotation loop of `EntityLinker.link_all` over the flattened
stream of annotations, threading the batch state and collecting rows.  An
exception raised by the strategy propagates and aborts the batch. -/
def linkAllFrom (normalize : String → String) (pre : String → ρ)
    (truthy : ρ → Bool) (calcF : ρ → ρ → Except PyError ℚ) (thr : ℚ)
    (ignore_not_linkable : Bool) (st : BatchState ρ) :
    List Annotation → Except PyError (List Row × BatchState ρ)
  | [] => .ok ([], st)
  | ann :: rest =>
      match processMention normalize pre truthy calcF thr st ann with
      | .error e => .error e
      | .ok (item, st', _stats) =>
          match linkAllFrom normalize pre truthy calcF thr
              ignore_not_linkable st' rest with
          | .error e => .error e
          | .ok (rows, st'') =>
              .ok (rowsFor ignore_not_linkable ann item ++ rows, st'')

/-! ### Label index builder (src/taisti_linker/ontology_parser.py)

The owlready2 ontology is abstracted to the interface the builder consumes:
an entity type `Ent`, `descendants`, `possibleLabels` (labels plus
synonyms), and `iriOf`. -/

/-- Inner loops of `OntologyParser.get_IRI_labels_data` for one descendant:
insert one record per possible label under its normalized form, last write
wins on collision (the warning branch does not affect the result). -/
def addLabels (normalize : String → String) (iriOf : Ent → String)
    (possibleLabels : Ent → List String) (c : Ent)
    (m : List (String × LabelWithIRI ρ)) : List (String × LabelWithIRI ρ) :=
  (possibleLabels c).foldl
    (fun m label =>
      let normalized_label := normalize label
      dictInsert normalized_label
        ⟨label, iriOf c, normalized_label, none⟩ m)
    m

/-- Per-category map construction (`OntologyParser.get_IRI_labels_data`):
iterate the category's roots, their descendants, and each descendant's
labels. -/
def get_IRI_labels_data (normalize : String → String) (iriOf : Ent → String)
    (possibleLabels : Ent → List String) (descendants : Ent → List Ent)
    (roots : List Ent) : List (String × LabelWithIRI ρ) :=
  roots.foldl
    (fun m root =>
      (descendants root).foldl
        (fun m c => addLabels normalize iriOf possibleLabels c m) m)
    []

/-- Hard-coded category-to-taxonomy-roots map
(`OntologyParser._get_root_nodes_for_categories`): only FOOD and PROCESS
have known roots. -/
def rootNodesForCategories (foodRoot bfoRoot : Ent) :
    List (EntityType × List Ent) :=
  [(.FOOD, [foodRoot]), (.PROCESS, [bfoRoot])]

/-- Full index construction
(`OntologyParser.get_IRI_labels_data_per_category`): for each entity type in
declaration order, add a sub-map only when the type has known taxonomy
roots. -/
def get_IRI_labels_data_per_category (normalize : String → String)
    (iriOf : Ent → String) (possibleLabels : Ent → List String)
    (descendants : Ent → List Ent)
    (typeToRoot : List (EntityType × List Ent)) : LabelMapping ρ :=
  allEntityTypes.foldl
    (fun result et =>
      match alookup et typeToRoot with
      | some roots =>
          dictInsert et
            (get_IRI_labels_data normalize iriOf possibleLabels
              descendants roots) result
      | none => result)
    []

/-! ### Projection helpers for stating concrete facts about `Except` results -/

/-- Decision component of a `link` or `processMention` result. -/
def okDecision : Except PyError (α × β × γ) → Option α
  | .ok (a, _, _) => some a
  | .error _ => none

/-- State or mapping component of a `link` or `processMention` result. -/
def okState : Except PyError (α × β × γ) → Option β
  | .ok (_, b, _) => some b
  | .error _ => none

/-- Counter component of a `link` or `processMention` result. -/
def okStats : Except PyError (α × β × γ) → Option γ
  | .ok (_, _, c) => some c
  | .error _ => none

/-- Error carried by an `Except` result, when there is one. -/
def errOf : Except PyError α → Option PyError
  | .ok _ => none
  | .error e => some e

instance exceptDecEq [DecidableEq ε] [DecidableEq α] :
    DecidableEq (Except ε α)
  | .ok x, .ok y =>
      if h : x = y then isTrue (by rw [h]) else isFalse (by simp [h])
  | .ok _, .error _ => isFalse (by simp)
  | .error _, .ok _ => isFalse (by simp)
  | .error e, .error f =>
      if h : e = f then isTrue (by rw [h]) else isFalse (by simp [h])

/-- Field preservation relation between a record before and after a scan:
same key, label, IRI and normalized label. -/
def sameCore (p q : String × LabelWithIRI ρ) : Prop :=
  p.1 = q.1 ∧ p.2.label = q.2.label ∧ p.2.iri = q.2.iri ∧
    p.2.normalized_label = q.2.normalized_label

/-- Category strings explicitly recognized by `get_entity_type` (one of the
tested branch conditions holds); everything else falls through to the final
catch-all. -/
def knownCategory (category : String) : Bool :=
  let c := pyLower category
  strContains c "food" ||
    decide (c ∈ ["possible_substite", "example", "trade_name",
                 "excluded", "exclusive"]) ||
    decide (c = "unit") || decide (c = "quantity") ||
    decide (c = "process") || decide (c = "color") ||
    decide (c = "physical_quality") || decide (c = "diet") ||
    decide (c = "part") || decide (c = "purpose") || decide (c = "taste")

/-! ### General lemmas about the dict model -/

lemma alookup_dictInsert [DecidableEq κ] (k t : κ) (v : α)
    (l : List (κ × α)) :
    alookup t (dictInsert k v l) =
      if k = t then some v else alookup t l := by
  induction l with
  | nil =>
      by_cases h : k = t <;> simp [dictInsert, alookup, h]
  | cons p rest ih =>
      obtain ⟨k', v'⟩ := p
      by_cases hk : k' = k
      · subst hk
        by_cases h : k' = t <;> simp [dictInsert, alookup, h]
      · by_cases h : k' = t
        · subst h
          have : ¬ k = k' := fun hc => hk hc.symm
          simp [dictInsert, alookup, hk, this]
        · simp [dictInsert, alookup, hk, h, ih]

lemma dictInsert_of_alookup_eq [DecidableEq κ] {k : κ} {v : α}
    {l : List (κ × α)} (h : alookup k l = some v) :
    dictInsert k v l = l := by
  induction l with
  | nil => simp [alookup] at h
  | cons p rest ih =>
      obtain ⟨k', v'⟩ := p
      by_cases hk : k' = k
      · subst hk
        simp [alookup] at h
        simp [dictInsert, h]
      · simp [alookup, hk] at h
        simp [dictInsert, hk, ih h]


/-! ### Lemmas about the candidate scan -/

lemma scanUpd_of_truthy (pre : String → ρ) {truthy : ρ → Bool}
    {item : LabelWithIRI ρ} {r : ρ}
    (hrep : item.similarity_representation = some r)
    (ht : truthy r = true) :
    scanUpd pre truthy item = item ∧ scanRep pre truthy item = r ∧
      scanPCost truthy item = 0 := by
  obtain ⟨la, ia, na, sa⟩ := item
  simp only at hrep
  subst hrep
  simp [scanUpd, scanRep, scanPCost, ht]

lemma sameCore_refl (l : List (String × LabelWithIRI ρ)) :
    List.Forall₂ sameCore l l := by
  induction l with
  | nil => exact .nil
  | cons p rest ih => exact .cons ⟨rfl, rfl, rfl, rfl⟩ ih

lemma sameCore_scanUpd (pre : String → ρ) (truthy : ρ → Bool)
    (k : String) (item : LabelWithIRI ρ) :
    sameCore (k, item) (k, scanUpd pre truthy item) :=
  ⟨rfl, rfl, rfl, rfl⟩

lemma linkScan_sameCore (pre : String → ρ) (truthy : ρ → Bool)
    (calcF : ρ → ρ → Except PyError ℚ) (thr : ℚ) (tp : ρ) :
    ∀ (l : List (String × LabelWithIRI ρ)) best maxSim res,
      linkScan pre truthy calcF thr tp l best maxSim = .ok res →
      List.Forall₂ sameCore l res.items := by
  intro l
  induction l with
  | nil =>
      intro best maxSim res h
      simp [linkScan] at h
      simp [← h]
  | cons p rest ih =>
      intro best maxSim res h
      obtain ⟨k, item⟩ := p
      rw [linkScan] at h
      rcases hc : calcF tp (scanRep pre truthy item) with e | score
      · rw [hc] at h; exact absurd h (by simp)
      · rw [hc] at h
        simp only at h
        by_cases h1 : score = 1
        · rw [if_pos h1] at h
          injection h with h
          rw [← h]
          exact .cons (sameCore_scanUpd pre truthy k item) (sameCore_refl rest)
        · rw [if_neg h1] at h
          rcases hrec : linkScan pre truthy calcF thr tp rest
              (if thr < score ∧ maxSim ≤ score
               then some (scanUpd pre truthy item) else best)
              (if thr < score ∧ maxSim ≤ score then score else maxSim)
              with e | res'
          · rw [hrec] at h; exact absurd h (by simp)
          · rw [hrec] at h
            injection h with h
            rw [← h]
            exact .cons (sameCore_scanUpd pre truthy k item) (ih _ _ _ hrec)

lemma linkScan_all_truthy (pre : String → ρ) (truthy : ρ → Bool)
    (calcF : ρ → ρ → Except PyError ℚ) (thr : ℚ) (tp : ρ) :
    ∀ (l : List (String × LabelWithIRI ρ)) best maxSim res,
      (∀ p ∈ l, ∃ r, (p.2).similarity_representation = some r ∧
          truthy r = true) →
      linkScan pre truthy calcF thr tp l best maxSim = .ok res →
      res.items = l ∧ res.preCalls = 0 := by
  intro l
  induction l with
  | nil =>
      intro best maxSim res _ h
      simp [linkScan] at h
      simp [← h]
  | cons p rest ih =>
      intro best maxSim res hall h
      obtain ⟨k, item⟩ := p
      obtain ⟨r, hrep, ht⟩ := hall (k, item) (by simp)
      obtain ⟨hupd, -, hpc⟩ := scanUpd_of_truthy pre hrep ht
      rw [linkScan] at h
      rcases hc : calcF tp (scanRep pre truthy item) with e | score
      · rw [hc] at h; exact absurd h (by simp)
      · rw [hc] at h
        simp only at h
        by_cases h1 : score = 1
        · rw [if_pos h1] at h
          injection h with h
          rw [← h]
          simp [hupd, hpc]
        · rw [if_neg h1] at h
          rcases hrec : linkScan pre truthy calcF thr tp rest
              (if thr < score ∧ maxSim ≤ score
               then some (scanUpd pre truthy item) else best)
              (if thr < score ∧ maxSim ≤ score then score else maxSim)
              with e | res'
          · rw [hrec] at h; exact absurd h (by simp)
          · rw [hrec] at h
            injection h with h
            obtain ⟨hitems, hpre⟩ :=
              ih _ _ _ (fun q hq => hall q (by simp [hq])) hrec
            rw [← h]
            simp [hupd, hpc, hitems, hpre]

lemma linkScan_total (pre : String → ρ) (truthy : ρ → Bool)
    (f : ρ → ρ → ℚ) (thr : ℚ) (tp : ρ) :
    ∀ (l : List (String × LabelWithIRI ρ)) best maxSim,
      ∃ res, linkScan pre truthy (fun a b => .ok (f a b)) thr tp l
          best maxSim = .ok res := by
  intro l
  induction l with
  | nil => intro best maxSim; exact ⟨_, rfl⟩
  | cons p rest ih =>
      intro best maxSim
      obtain ⟨k, item⟩ := p
      rw [linkScan]
      dsimp only
      by_cases h1 : f tp (scanRep pre truthy item) = 1
      · exact ⟨_, by rw [if_pos h1]⟩
      · obtain ⟨res', hres'⟩ := ih
          (if thr < f tp (scanRep pre truthy item) ∧
              maxSim ≤ f tp (scanRep pre truthy item)
           then some (scanUpd pre truthy item) else best)
          (if thr < f tp (scanRep pre truthy item) ∧
              maxSim ≤ f tp (scanRep pre truthy item)
           then f tp (scanRep pre truthy item) else maxSim)
        rw [if_neg h1, hres']
        exact ⟨_, rfl⟩

/-- One step of the scan with a populated, truthy representation and a
non-perfect score: the loop proceeds to the rest of the candidates, with
the running best updated exactly when the score strictly exceeds the
threshold and is at least the current best score. -/
lemma linkScan_step_best (pre : String → ρ) (truthy : ρ → Bool)
    (calcF : ρ → ρ → Except PyError ℚ) (thr : ℚ) (tp : ρ)
    (k : String) {item : LabelWithIRI ρ} {r : ρ} {s : ℚ}
    (hrep : item.similarity_representation = some r)
    (ht : truthy r = true) (hc : calcF tp r = .ok s) (h1 : s ≠ 1)
    (rest : List (String × LabelWithIRI ρ))
    (best : Option (LabelWithIRI ρ)) (maxSim : ℚ) :
    (linkScan pre truthy calcF thr tp ((k, item) :: rest) best
        maxSim).map ScanResult.best =
      (linkScan pre truthy calcF thr tp rest
        (if thr < s ∧ maxSim ≤ s then some item else best)
        (if thr < s ∧ maxSim ≤ s then s else maxSim)).map
          ScanResult.best := by
  obtain ⟨hupd, hsrep, -⟩ := scanUpd_of_truthy pre hrep ht
  rw [linkScan, hsrep, hc]
  simp only [hupd, if_neg h1]
  rcases hrec : linkScan pre truthy calcF thr tp rest
      (if thr < s ∧ maxSim ≤ s then some item else best)
      (if thr < s ∧ maxSim ≤ s then s else maxSim) with e | res'
  · simp
  · simp [Except.map]

/-! ### Lemmas about link and the batch loop -/

lemma link_absent {pre : String → ρ} {truthy : ρ → Bool}
    {calcF : ρ → ρ → Except PyError ℚ} {thr : ℚ}
    {mapping : LabelMapping ρ} {text : String} {et : EntityType}
    (h : alookup et mapping = none) :
    link pre truthy calcF thr mapping text et =
      .ok (none, mapping, ⟨0, 0, 0⟩) := by
  simp [link, h]

lemma process_exact_eq {normalize : String → String} {pre : String → ρ}
    {truthy : ρ → Bool} {calcF : ρ → ρ → Except PyError ℚ} {thr : ℚ}
    {st : BatchState ρ} {ann : Annotation} {item : LabelWithIRI ρ}
    (h : exactLookup st.mapping (get_entity_type ann.category)
        (normalize ann.text) = some item) :
    processMention normalize pre truthy calcF thr st ann =
      .ok (some item, st, ⟨0, 0, 0⟩) := by
  simp [processMention, h]

lemma process_memo_eq {normalize : String → String} {pre : String → ρ}
    {truthy : ρ → Bool} {calcF : ρ → ρ → Except PyError ℚ} {thr : ℚ}
    {st : BatchState ρ} {ann : Annotation}
    {d : Option (LabelWithIRI ρ)}
    (hne : exactLookup st.mapping (get_entity_type ann.category)
        (normalize ann.text) = none)
    (hc : alookup (normalize ann.text) st.cache = some d) :
    processMention normalize pre truthy calcF thr st ann =
      .ok (d, st, ⟨0, 0, 0⟩) := by
  simp [processMention, hne, hc]

lemma process_cache_mono {normalize : String → String} {pre : String → ρ}
    {truthy : ρ → Bool} {calcF : ρ → ρ → Except PyError ℚ} {thr : ℚ}
    {st : BatchState ρ} {ann : Annotation} {t : String}
    {d : Option (LabelWithIRI ρ)}
    {dec : Option (LabelWithIRI ρ)} {st' : BatchState ρ} {stats : LinkStats}
    (hd : alookup t st.cache = some d)
    (h : processMention normalize pre truthy calcF thr st ann =
      .ok (dec, st', stats)) :
    alookup t st'.cache = some d := by
  unfold processMention at h
  dsimp only at h
  rcases hex : exactLookup st.mapping (get_entity_type ann.category)
      (normalize ann.text) with _ | item
  · rw [hex] at h
    dsimp only at h
    rcases hc : alookup (normalize ann.text) st.cache with _ | d'
    · rw [hc] at h
      dsimp only at h
      rcases hl : link pre truthy calcF thr st.mapping
          (normalize ann.text) (get_entity_type ann.category)
          with e | trip
      · rw [hl] at h; exact absurd h (by simp)
      · obtain ⟨item', mapping', stats'⟩ := trip
        rw [hl] at h
        simp only [Except.ok.injEq, Prod.mk.injEq] at h
        obtain ⟨-, hst, -⟩ := h
        rw [← hst]
        have hneq : normalize ann.text ≠ t := by
          intro he; rw [he, hd] at hc; exact absurd hc (by simp)
        simp only [alookup_dictInsert]
        simp [hneq, hd]
    · rw [hc] at h
      simp only [Except.ok.injEq, Prod.mk.injEq] at h
      obtain ⟨-, hst, -⟩ := h
      rw [← hst]; exact hd
  · rw [hex] at h
    simp only [Except.ok.injEq, Prod.mk.injEq] at h
    obtain ⟨-, hst, -⟩ := h
    rw [← hst]; exact hd

lemma link_total (pre : String → ρ) (truthy : ρ → Bool) (f : ρ → ρ → ℚ)
    (thr : ℚ) (mapping : LabelMapping ρ) (text : String) (et : EntityType) :
    ∃ trip, link pre truthy (fun a b => .ok (f a b)) thr mapping text et =
      .ok trip := by
  unfold link
  rcases h : alookup et mapping with _ | sub
  · exact ⟨_, rfl⟩
  · obtain ⟨res, hres⟩ := linkScan_total pre truthy f thr (pre text)
      sub none (-1)
    dsimp only
    rw [hres]
    exact ⟨_, rfl⟩

lemma processMention_total (normalize : String → String)
    (pre : String → ρ) (truthy : ρ → Bool) (f : ρ → ρ → ℚ) (thr : ℚ)
    (st : BatchState ρ) (ann : Annotation) :
    ∃ trip, processMention normalize pre truthy
        (fun a b => .ok (f a b)) thr st ann = .ok trip := by
  unfold processMention
  dsimp only
  rcases hex : exactLookup st.mapping (get_entity_type ann.category)
      (normalize ann.text) with _ | item
  · rcases hc : alookup (normalize ann.text) st.cache with _ | d
    · obtain ⟨trip, htrip⟩ := link_total pre truthy f thr st.mapping
        (normalize ann.text) (get_entity_type ann.category)
      obtain ⟨item', mapping', stats'⟩ := trip
      rw [htrip]
      exact ⟨_, rfl⟩
    · exact ⟨_, rfl⟩
  · exact ⟨_, rfl⟩

lemma linkAllFrom_total (normalize : String → String) (pre : String → ρ)
    (truthy : ρ → Bool) (f : ρ → ρ → ℚ) (thr : ℚ) :
    ∀ (anns : List Annotation) (st : BatchState ρ),
      ∃ rows st', linkAllFrom normalize pre truthy
          (fun a b => .ok (f a b)) thr false st anns = .ok (rows, st') ∧
        rows.length = anns.length := by
  intro anns
  induction anns with
  | nil => intro st; exact ⟨[], st, rfl, rfl⟩
  | cons ann rest ih =>
      intro st
      obtain ⟨trip, htrip⟩ := processMention_total normalize pre truthy
        f thr st ann
      obtain ⟨item, st1, stats⟩ := trip
      obtain ⟨rows, st', hrec, hlen⟩ := ih st1
      refine ⟨rowsFor false ann item ++ rows, st', ?_, ?_⟩
      · rw [linkAllFrom, htrip]
        dsimp only
        rw [hrec]
      · rcases item with _ | it <;> simp [rowsFor, hlen]

/-! ### Lemmas about the index builder -/

lemma perCategory_lookup_none {Ent : Type} (normalize : String → String)
    (iriOf : Ent → String) (possibleLabels : Ent → List String)
    (descendants : Ent → List Ent)
    (typeToRoot : List (EntityType × List Ent)) (et : EntityType)
    (h : alookup et typeToRoot = none) :
    alookup et (get_IRI_labels_data_per_category (ρ := ρ) normalize iriOf
      possibleLabels descendants typeToRoot) = none := by
  unfold get_IRI_labels_data_per_category
  suffices hgen : ∀ (ets : List EntityType) (acc : LabelMapping ρ),
      alookup et acc = none →
      alookup et (ets.foldl (fun result et' =>
        match alookup et' typeToRoot with
        | some roots =>
            dictInsert et' (get_IRI_labels_data normalize iriOf
              possibleLabels descendants roots) result
        | none => result) acc) = none by
    exact hgen allEntityTypes [] rfl
  intro ets
  induction ets with
  | nil => intro acc hacc; exact hacc
  | cons e rest ih =>
      intro acc hacc
      rw [List.foldl_cons]
      rcases he : alookup e typeToRoot with _ | roots
      · exact ih acc hacc
      · have hne : e ≠ et := by
          intro hee; rw [hee, h] at he; exact absurd he (by simp)
        refine ih _ ?_
        rw [alookup_dictInsert]
        simp [hne, hacc]

lemma rootNodes_lookup_none {Ent : Type} (foodRoot bfoRoot : Ent)
    (et : EntityType) (h1 : et ≠ .FOOD) (h2 : et ≠ .PROCESS) :
    alookup et (rootNodesForCategories foodRoot bfoRoot) = none := by
  have h1' : EntityType.FOOD ≠ et := fun h => h1 h.symm
  have h2' : EntityType.PROCESS ≠ et := fun h => h2 h.symm
  simp [rootNodesForCategories, alookup, h1', h2']

/-! ### Claim theorems -/

/-- C2: a mention whose normalized text is a key of its category's index
sub-map is returned directly as a match by the `link_all` fast path,
regardless of the threshold value and of the configured strategy (whose
preprocess and score are never invoked: the counters are zero and the
result is a success even when the strategy always raises), with the batch
state, in particular the memo, unchanged and never consulted (the result
does not depend on the memo contents, which are universally quantified in
`st`). -/
theorem exact_match_bypasses_strategy_and_memo {ρ : Type}
    (normalize : String → String) (pre : String → ρ) (truthy : ρ → Bool)
    (calcF : ρ → ρ → Except PyError ℚ) (thr : ℚ)
    (st : BatchState ρ) (ann : Annotation) (item : LabelWithIRI ρ)
    (h : exactLookup st.mapping (get_entity_type ann.category)
        (normalize ann.text) = some item) :
    processMention normalize pre truthy calcF thr st ann =
      .ok (some item, st, ⟨0, 0, 0⟩) :=
  process_exact_eq h

/-- Witness for C2: a two-field state whose memo holds a conflicting
no-match decision for the same normalized text, a strategy that raises if
invoked, and the maximal threshold 1.0; the exact match is still returned,
untouched state included. -/
theorem exact_match_bypass_witness :
    processMention (ρ := Unit) id (fun _ => ()) (fun _ => false)
        (fun _ _ => .error .typeError) 1
        ⟨[(.UNIT, [("foo", ⟨"Foo", "iri:foo", "foo", none⟩)])],
         [("foo", none)]⟩
        ⟨"T1", 0, 0, 3, "unit", "foo", .BRAT⟩ =
      .ok (some ⟨"Foo", "iri:foo", "foo", none⟩,
           ⟨[(.UNIT, [("foo", ⟨"Foo", "iri:foo", "foo", none⟩)])],
            [("foo", none)]⟩, ⟨0, 0, 0⟩) :=
  exact_match_bypasses_strategy_and_memo id (fun _ => ()) (fun _ => false)
    (fun _ _ => .error .typeError) 1 _ _ _ (by decide)

/-- C7: a semantic category with no known taxonomy root (any category other
than FOOD and PROCESS, the only keys of the hard-coded root map) is absent
from the built label index entirely, and `link` returns a no-match decision
for every mention text and every threshold, without invoking the strategy
and without touching the index. -/
theorem absent_category_no_entry_no_match {ρ Ent : Type}
    (normalize : String → String) (iriOf : Ent → String)
    (possibleLabels : Ent → List String) (descendants : Ent → List Ent)
    (foodRoot bfoRoot : Ent) (et : EntityType) (index : LabelMapping ρ)
    (h1 : et ≠ .FOOD) (h2 : et ≠ .PROCESS)
    (hidx : index = get_IRI_labels_data_per_category normalize iriOf
      possibleLabels descendants (rootNodesForCategories foodRoot bfoRoot))
    (pre : String → ρ) (truthy : ρ → Bool)
    (calcF : ρ → ρ → Except PyError ℚ) (thr : ℚ) (text : String) :
    alookup et index = none ∧
      link pre truthy calcF thr index text et =
        .ok (none, index, ⟨0, 0, 0⟩) := by
  have habs : alookup et index = none := by
    rw [hidx]
    exact perCategory_lookup_none normalize iriOf possibleLabels
      descendants _ et (rootNodes_lookup_none foodRoot bfoRoot et h1 h2)
  exact ⟨habs, link_absent habs⟩

/-- Witness for C7: the index built over a one-entity toy ontology has no
entry for UNIT, and linking a UNIT mention returns a no-match decision at
threshold 0. -/
theorem absent_category_witness :
    alookup EntityType.UNIT
        (get_IRI_labels_data_per_category (ρ := Unit) id
          (fun _ => "iri:e") (fun _ => ["lab"]) (fun _ => [()])
          (rootNodesForCategories () ())) = none ∧
      link (fun _ => ()) (fun _ => true) (fun _ _ => .ok 0) 0
          (get_IRI_labels_data_per_category id (fun _ => "iri:e")
            (fun _ => ["lab"]) (fun _ => [()])
            (rootNodesForCategories () ())) "t" .UNIT =
        .ok (none,
          get_IRI_labels_data_per_category id (fun _ => "iri:e")
            (fun _ => ["lab"]) (fun _ => [()])
            (rootNodesForCategories () ()), ⟨0, 0, 0⟩) :=
  absent_category_no_entry_no_match id (fun _ => "iri:e")
    (fun _ => ["lab"]) (fun _ => [()]) () () .UNIT _
    (by decide) (by decide) rfl (fun _ => ()) (fun _ => true)
    (fun _ _ => .ok 0) 0 "t"

/-- C8: the set-overlap and n-gram scores both equal the cardinality of the
intersection divided by the cardinality of the union, the score is 0 when
either input set is empty (by the explicit guard, not by dividing), and in
the non-empty case the divisor is provably nonzero, so no division error
can arise. -/
theorem jaccard_everygram_score_formula (a b : Finset String)
    (c d : Finset (List String)) :
    (jaccardSim a b = ((a ∩ b).card : ℚ) / ((a ∪ b).card : ℚ)) ∧
    ((a = ∅ ∨ b = ∅) → jaccardSim a b = 0) ∧
    (a ≠ ∅ → b ≠ ∅ → ((a ∪ b).card : ℚ) ≠ 0) ∧
    (everygramSim c d = ((c ∩ d).card : ℚ) / ((c ∪ d).card : ℚ)) ∧
    ((c = ∅ ∨ d = ∅) → everygramSim c d = 0) ∧
    (c ≠ ∅ → d ≠ ∅ → ((c ∪ d).card : ℚ) ≠ 0) := by
  refine ⟨?_, ?_, ?_, ?_, ?_, ?_⟩
  · unfold jaccardSim
    rcases em (a.card = 0 ∨ b.card = 0) with h | h
    · rw [if_pos h]
      rcases h with h | h
      · rw [Finset.card_eq_zero.mp h]
        simp
      · rw [Finset.card_eq_zero.mp h]
        simp
    · rw [if_neg h]
  · intro h
    unfold jaccardSim
    rcases h with h | h <;> subst h <;> simp
  · intro ha hb
    have h : 0 < (a ∪ b).card :=
      Finset.card_pos.mpr ((Finset.nonempty_iff_ne_empty.mpr ha).mono
        Finset.subset_union_left)
    exact Nat.cast_ne_zero.mpr (Nat.pos_iff_ne_zero.mp h)
  · unfold everygramSim
    rcases em (c.card = 0 ∨ d.card = 0) with h | h
    · rw [if_pos h]
      rcases h with h | h
      · rw [Finset.card_eq_zero.mp h]
        simp
      · rw [Finset.card_eq_zero.mp h]
        simp
    · rw [if_neg h]
  · intro h
    unfold everygramSim
    rcases h with h | h <;> subst h <;> simp
  · intro hc hd
    have h : 0 < (c ∪ d).card :=
      Finset.card_pos.mpr ((Finset.nonempty_iff_ne_empty.mpr hc).mono
        Finset.subset_union_left)
    exact Nat.cast_ne_zero.mpr (Nat.pos_iff_ne_zero.mp h)

/-- Witness for C8: concrete empty-side scores evaluate to 0 and concrete
non-empty unions have a nonzero divisor. -/
theorem jaccard_everygram_formula_witness :
    jaccardSim {"x"} ∅ = 0 ∧ everygramSim {["x"]} ∅ = 0 ∧
      (((({"x"} : Finset String) ∪ {"y"}).card : ℚ) ≠ 0) ∧
      (((({["x"]} : Finset (List String)) ∪ {["y"]}).card : ℚ) ≠ 0) :=
  ⟨(jaccard_everygram_score_formula {"x"} ∅ {["x"]} ∅).2.1 (Or.inr rfl),
   (jaccard_everygram_score_formula {"x"} ∅ {["x"]} ∅).2.2.2.2.1
     (Or.inr rfl),
   (jaccard_everygram_score_formula {"x"} {"y"} {["x"]} {["y"]}).2.2.1
     (by decide) (by decide),
   (jaccard_everygram_score_formula {"x"} {"y"} {["x"]} {["y"]}).2.2.2.2.2
     (by decide) (by decide)⟩

/-- C1: the scan updates the running best exactly when the candidate's
score strictly exceeds the threshold and is at least the current best
score (first conjunct: a non-perfect step hands the rest of the scan the
conditionally updated running best and score), and consequently, for a
two-entry index whose candidates both score the same value s with
threshold below s, `link` returns the second candidate: the last-wins
tie-break under equal score. -/
theorem link_best_update_rule_and_last_wins :
    (∀ (ρ : Type) (pre : String → ρ) (truthy : ρ → Bool)
       (calcF : ρ → ρ → Except PyError ℚ) (thr : ℚ) (tp : ρ)
       (k : String) (item : LabelWithIRI ρ) (r : ρ) (s : ℚ)
       (rest : List (String × LabelWithIRI ρ))
       (best : Option (LabelWithIRI ρ)) (maxSim : ℚ),
       item.similarity_representation = some r → truthy r = true →
       calcF tp r = .ok s → s ≠ 1 →
       (linkScan pre truthy calcF thr tp ((k, item) :: rest) best
           maxSim).map ScanResult.best =
         (linkScan pre truthy calcF thr tp rest
           (if thr < s ∧ maxSim ≤ s then some item else best)
           (if thr < s ∧ maxSim ≤ s then s else maxSim)).map
             ScanResult.best) ∧
    (∀ (ρ : Type) (pre : String → ρ) (truthy : ρ → Bool)
       (calcF : ρ → ρ → Except PyError ℚ) (thr : ℚ) (text : String)
       (et : EntityType) (mapping : LabelMapping ρ) (ka kb : String)
       (A B : LabelWithIRI ρ) (rA rB : ρ) (s : ℚ),
       alookup et mapping = some [(ka, A), (kb, B)] →
       A.similarity_representation = some rA → truthy rA = true →
       B.similarity_representation = some rB → truthy rB = true →
       calcF (pre text) rA = .ok s → calcF (pre text) rB = .ok s →
       -1 ≤ thr → thr < s → s ≠ 1 →
       okDecision (link pre truthy calcF thr mapping text et) =
         some (some B)) := by
  constructor
  · intro ρ pre truthy calcF thr tp k item r s rest best maxSim
      hrep ht hc h1
    exact linkScan_step_best pre truthy calcF thr tp k hrep ht hc h1
      rest best maxSim
  · intro ρ pre truthy calcF thr text et mapping ka kb A B rA rB s
      hmap hrA htA hrB htB hcA hcB hthr hlt h1
    have hs1 : -1 ≤ s := le_trans hthr (le_of_lt hlt)
    have hcondA : thr < s ∧ (-1 : ℚ) ≤ s := ⟨hlt, hs1⟩
    have hcondB : thr < s ∧ s ≤ s := ⟨hlt, le_refl s⟩
    have hstepA := linkScan_step_best pre truthy calcF thr (pre text)
      ka hrA htA hcA h1 [(kb, B)] none (-1)
    have hstepB := linkScan_step_best pre truthy calcF thr (pre text)
      kb hrB htB hcB h1 ([] : List (String × LabelWithIRI ρ))
      (if thr < s ∧ (-1 : ℚ) ≤ s then some A else none)
      (if thr < s ∧ (-1 : ℚ) ≤ s then s else -1)
    rw [if_pos hcondA, if_pos hcondA] at hstepB
    rw [if_pos hcondB] at hstepB
    have hchain : (linkScan pre truthy calcF thr (pre text)
        [(ka, A), (kb, B)] none (-1)).map ScanResult.best =
        .ok (some B) := by
      rw [hstepA, if_pos hcondA, if_pos hcondA, hstepB]
      rw [linkScan]
      rfl
    rcases hscan : linkScan pre truthy calcF thr (pre text)
        [(ka, A), (kb, B)] none (-1) with e | res
    · rw [hscan] at hchain; exact absurd hchain (by simp [Except.map])
    · rw [hscan] at hchain
      have hbest : res.best = some B := by
        simpa [Except.map] using hchain
      unfold link
      rw [hmap]
      dsimp only
      rw [hscan]
      simp [okDecision, hbest]

/-- Witness for C1: with threshold 1/2 and two candidates A then B both
scoring 3/5 under a constant strategy, one scan step transfers the
conditionally updated best to the rest, and `link` decides for B. -/
theorem link_last_wins_witness :
    ((linkScan (ρ := Unit) (fun _ => ()) (fun _ => true)
        (fun _ _ => .ok (mkRat 3 5)) (mkRat 1 2) ()
        [("ka", ⟨"A", "iri:a", "na", some ()⟩),
         ("kb", ⟨"B", "iri:b", "nb", some ()⟩)] none (-1)).map
          ScanResult.best =
      (linkScan (fun _ => ()) (fun _ => true)
        (fun _ _ => .ok (mkRat 3 5)) (mkRat 1 2) ()
        [("kb", ⟨"B", "iri:b", "nb", some ()⟩)]
        (if mkRat 1 2 < mkRat 3 5 ∧ (-1 : ℚ) ≤ mkRat 3 5
         then some ⟨"A", "iri:a", "na", some ()⟩ else none)
        (if mkRat 1 2 < mkRat 3 5 ∧ (-1 : ℚ) ≤ mkRat 3 5
         then mkRat 3 5 else -1)).map ScanResult.best) ∧
    okDecision (link (ρ := Unit) (fun _ => ()) (fun _ => true)
        (fun _ _ => .ok (mkRat 3 5)) (mkRat 1 2)
        [(.FOOD, [("ka", ⟨"A", "iri:a", "na", some ()⟩),
                  ("kb", ⟨"B", "iri:b", "nb", some ()⟩)])] "t" .FOOD) =
      some (some ⟨"B", "iri:b", "nb", some ()⟩) :=
  ⟨link_best_update_rule_and_last_wins.1 Unit (fun _ => ()) (fun _ => true)
      (fun _ _ => .ok (mkRat 3 5)) (mkRat 1 2) () "ka"
      ⟨"A", "iri:a", "na", some ()⟩ () (mkRat 3 5)
      [("kb", ⟨"B", "iri:b", "nb", some ()⟩)] none (-1)
      rfl rfl rfl (by decide),
   link_best_update_rule_and_last_wins.2 Unit (fun _ => ()) (fun _ => true)
      (fun _ _ => .ok (mkRat 3 5)) (mkRat 1 2) "t" .FOOD
      [(.FOOD, [("ka", ⟨"A", "iri:a", "na", some ()⟩),
                ("kb", ⟨"B", "iri:b", "nb", some ()⟩)])]
      "ka" "kb" ⟨"A", "iri:a", "na", some ()⟩ ⟨"B", "iri:b", "nb", some ()⟩
      () () (mkRat 3 5) (by decide) rfl rfl rfl rfl rfl rfl
      (by decide) (by decide) (by decide)⟩

/-- Counterexample for C3: with threshold 1.0 and a single candidate whose
score is exactly 1.0, the scan does stop but the candidate is NOT accepted,
because the acceptance guard demands a score strictly greater than the
threshold: `link` returns a no-match decision, contradicting the claim that
the 1.0-scoring candidate is accepted and returned for every threshold
value. -/
theorem perfect_score_threshold_one_counterexample :
    link (ρ := Unit) (fun _ => ()) (fun _ => true) (fun _ _ => .ok 1) 1
        [(.FOOD, [("k", ⟨"R", "iri:r", "k", some ()⟩)])] "t" .FOOD =
      .ok (none, [(.FOOD, [("k", ⟨"R", "iri:r", "k", some ()⟩)])],
           ⟨1, 0, 1⟩) := by
  rfl

/-- C3 amended: a candidate scoring exactly 1.0 stops the scan immediately
for every threshold — exactly one score call is made and the remaining
candidates are returned untouched, their representations unevaluated — and
the perfect candidate is accepted as the returned best exactly when 1
strictly exceeds the threshold and is at least the running best score;
in particular, for thresholds at or above 1.0 the scan still stops but the
previously tracked best is returned instead. -/
theorem perfect_score_early_exit_amended {ρ : Type} (pre : String → ρ)
    (truthy : ρ → Bool) (calcF : ρ → ρ → Except PyError ℚ) (thr : ℚ)
    (tp : ρ) (k : String) (item : LabelWithIRI ρ)
    (rest : List (String × LabelWithIRI ρ))
    (best : Option (LabelWithIRI ρ)) (maxSim : ℚ)
    (hc : calcF tp (scanRep pre truthy item) = .ok 1) :
    linkScan pre truthy calcF thr tp ((k, item) :: rest) best maxSim =
      .ok ⟨if thr < 1 ∧ maxSim ≤ 1 then some (scanUpd pre truthy item)
           else best,
           (k, scanUpd pre truthy item) :: rest,
           scanPCost truthy item, 1⟩ := by
  rw [linkScan, hc]
  simp

/-- Witness for C3 amended: a perfect score at threshold 1/2 stops a
two-candidate scan after one score call, accepts the perfect candidate,
and leaves the second candidate unevaluated. -/
theorem perfect_score_early_exit_witness :
    linkScan (ρ := Unit) (fun _ => ()) (fun _ => true)
        (fun _ _ => .ok 1) (mkRat 1 2) ()
        [("k", ⟨"R", "iri:r", "k", some ()⟩),
         ("m", ⟨"S", "iri:s", "m", none⟩)] none (-1) =
      .ok ⟨if mkRat 1 2 < 1 ∧ (-1 : ℚ) ≤ 1
           then some (scanUpd (fun _ => ()) (fun _ => true)
             ⟨"R", "iri:r", "k", some ()⟩)
           else none,
           [("k", scanUpd (fun _ => ()) (fun _ => true)
               ⟨"R", "iri:r", "k", some ()⟩),
            ("m", ⟨"S", "iri:s", "m", none⟩)],
           scanPCost (fun _ => true) ⟨"R", "iri:r", "k", some ()⟩, 1⟩ :=
  perfect_score_early_exit_amended (fun _ => ()) (fun _ => true)
    (fun _ _ => .ok 1) (mkRat 1 2) () "k" ⟨"R", "iri:r", "k", some ()⟩
    [("m", ⟨"S", "iri:s", "m", none⟩)] none (-1) rfl

/-- C4 (code evaluated at the failing inputs): with the wordnet strategy an
undefined score is NOT recovered: an empty first sense sequence raises
ZeroDivisionError at the final averaging, an empty comparison sequence
raises ValueError inside Python `max` before the `is not None` guard can
see it, and through `link` the exception propagates out of the scan to the
caller instead of skipping to the next candidate: the scan aborts with the
error. -/
theorem wordnet_empty_crashes_scan :
    wordnetSim (fun (_ _ : Unit) => some 1) [] [] =
      .error .zeroDivisionError ∧
    wordnetSim (fun (_ _ : Unit) => some 1) [()] [] =
      .error .valueError ∧
    link (ρ := List Unit)
        (fun t => wordnetPreprocess
          (fun s => if s = "x" then [("x", "NN")] else [])
          (fun _ _ => [()]) t false)
        listTruthy
        (fun a b => wordnetSim (fun _ _ => some 1) a b) (mkRat 1 2)
        [(.FOOD, [("", ⟨"L", "iri:l", "", none⟩),
                  ("x", ⟨"X", "iri:x", "x", none⟩)])] "x" .FOOD =
      .error .valueError := by
  refine ⟨rfl, rfl, ?_⟩
  rfl

/-- C5: the batch memo is keyed purely by normalized mention text.  First
conjunct: a mention that is not an exact index key for its own category and
whose normalized text is memoized gets the memoized decision back
unchanged, whatever its category, with state untouched and the strategy
never invoked.  Second conjunct: an existing memo entry is never
overwritten by processing any further mention, so the memo is written at
most once per distinct normalized text.  Third conjunct: a mention whose
normalized text exactly matches an index entry for its category bypasses
the memo entirely, leaving the state unchanged. -/
theorem memo_keyed_by_text_write_once :
    (∀ (ρ : Type) (normalize : String → String) (pre : String → ρ)
       (truthy : ρ → Bool) (calcF : ρ → ρ → Except PyError ℚ) (thr : ℚ)
       (st : BatchState ρ) (ann : Annotation)
       (d : Option (LabelWithIRI ρ)),
       exactLookup st.mapping (get_entity_type ann.category)
           (normalize ann.text) = none →
       alookup (normalize ann.text) st.cache = some d →
       processMention normalize pre truthy calcF thr st ann =
         .ok (d, st, ⟨0, 0, 0⟩)) ∧
    (∀ (ρ : Type) (normalize : String → String) (pre : String → ρ)
       (truthy : ρ → Bool) (calcF : ρ → ρ → Except PyError ℚ) (thr : ℚ)
       (st : BatchState ρ) (ann : Annotation) (t : String)
       (d : Option (LabelWithIRI ρ)) (dec : Option (LabelWithIRI ρ))
       (st' : BatchState ρ) (stats : LinkStats),
       alookup t st.cache = some d →
       processMention normalize pre truthy calcF thr st ann =
         .ok (dec, st', stats) →
       alookup t st'.cache = some d) ∧
    (∀ (ρ : Type) (normalize : String → String) (pre : String → ρ)
       (truthy : ρ → Bool) (calcF : ρ → ρ → Except PyError ℚ) (thr : ℚ)
       (st : BatchState ρ) (ann : Annotation) (item : LabelWithIRI ρ),
       exactLookup st.mapping (get_entity_type ann.category)
           (normalize ann.text) = some item →
       processMention normalize pre truthy calcF thr st ann =
         .ok (some item, st, ⟨0, 0, 0⟩)) := by
  refine ⟨?_, ?_, ?_⟩
  · intro ρ normalize pre truthy calcF thr st ann d hne hc
    exact process_memo_eq hne hc
  · intro ρ normalize pre truthy calcF thr st ann t d dec st' stats hd h
    exact process_cache_mono hd h
  · intro ρ normalize pre truthy calcF thr st ann item h
    exact process_exact_eq h

/-- Witness for C5: a memo entry written under one category is returned for
a mention of a different category sharing the normalized text, is preserved
across a further memo write for another text, and an exact-match mention
leaves the memo untouched. -/
theorem memo_keyed_by_text_witness :
    (processMention (ρ := Unit) id (fun _ => ()) (fun _ => true)
        (fun _ _ => .ok 0) 1
        ⟨[(.FOOD, [("z", ⟨"Z", "iri:z", "z", none⟩)])],
         [("foo", some ⟨"C", "iri:c", "foo", none⟩)]⟩
        ⟨"T1", 0, 0, 3, "unit", "foo", .NER⟩ =
      .ok (some ⟨"C", "iri:c", "foo", none⟩,
           ⟨[(.FOOD, [("z", ⟨"Z", "iri:z", "z", none⟩)])],
            [("foo", some ⟨"C", "iri:c", "foo", none⟩)]⟩, ⟨0, 0, 0⟩)) ∧
    alookup "foo"
        (BatchState.cache (ρ := Unit)
          ⟨[(.FOOD, [("z", ⟨"Z", "iri:z", "z", none⟩)])],
           [("foo", some ⟨"C", "iri:c", "foo", none⟩), ("bar", none)]⟩) =
      some (some ⟨"C", "iri:c", "foo", none⟩) ∧
    (processMention (ρ := Unit) id (fun _ => ()) (fun _ => true)
        (fun _ _ => .ok 0) 1
        ⟨[(.FOOD, [("z", ⟨"Z", "iri:z", "z", none⟩)])],
         [("foo", some ⟨"C", "iri:c", "foo", none⟩)]⟩
        ⟨"T3", 0, 0, 1, "food", "z", .NER⟩ =
      .ok (some ⟨"Z", "iri:z", "z", none⟩,
           ⟨[(.FOOD, [("z", ⟨"Z", "iri:z", "z", none⟩)])],
            [("foo", some ⟨"C", "iri:c", "foo", none⟩)]⟩, ⟨0, 0, 0⟩)) := by
  refine ⟨?_, ?_, ?_⟩
  · exact memo_keyed_by_text_write_once.1 Unit id (fun _ => ())
      (fun _ => true) (fun _ _ => .ok 0) 1 _ _ _ (by decide) (by decide)
  · exact memo_keyed_by_text_write_once.2.1 Unit id (fun _ => ())
      (fun _ => true) (fun _ _ => .ok 0) 1
      ⟨[(.FOOD, [("z", ⟨"Z", "iri:z", "z", none⟩)])],
       [("foo", some ⟨"C", "iri:c", "foo", none⟩)]⟩
      ⟨"T2", 0, 0, 3, "unit", "bar", .NER⟩ "foo"
      (some ⟨"C", "iri:c", "foo", none⟩) none _ ⟨0, 0, 0⟩
      (by decide) (by rfl)
  · exact memo_keyed_by_text_write_once.2.2 Unit id (fun _ => ())
      (fun _ => true) (fun _ _ => .ok 0) 1 _ _ _ (by decide)

/-- Counterexample for C6: a mention with the unknown category string
"gadget" does not degrade to a no-match decision: `get_entity_type` falls
through to its FOOD catch-all, the mention is linked against the FOOD
index, and its text matches a FOOD entry exactly, so the decision is a
match. -/
theorem unknown_category_matches_counterexample :
    okDecision (processMention (ρ := Unit) id (fun _ => ())
        (fun _ => true) (fun _ _ => .ok 0) 1
        ⟨[(.FOOD, [("pizza", ⟨"Pizza", "iri:pizza", "pizza", none⟩)])], []⟩
        ⟨"T1", 0, 0, 5, "gadget", "pizza", .NER⟩) =
      some (some ⟨"Pizza", "iri:pizza", "pizza", none⟩) ∧
    get_entity_type "gadget" = .FOOD := by
  exact ⟨by rfl, by decide⟩

/-- C6 amended: an unknown category string never aborts the batch, but it
is mapped to the FOOD entity type by the catch-all of `get_entity_type`
(first conjunct) and is therefore linked against the FOOD index like any
FOOD mention — it may match, and yields "no match" only when FOOD linking
finds nothing; with a total scoring strategy the batch loop always
succeeds and emits exactly one decision row per mention, unknown
categories included (second conjunct). -/
theorem unknown_category_default_food_amended :
    (∀ c : String, knownCategory c = false → get_entity_type c = .FOOD) ∧
    (∀ (ρ : Type) (normalize : String → String) (pre : String → ρ)
       (truthy : ρ → Bool) (f : ρ → ρ → ℚ) (thr : ℚ)
       (anns : List Annotation) (st : BatchState ρ),
       ∃ rows st',
         linkAllFrom normalize pre truthy (fun a b => .ok (f a b)) thr
             false st anns = .ok (rows, st') ∧
           rows.length = anns.length) := by
  constructor
  · intro c h
    simp only [knownCategory, Bool.or_eq_false_iff,
      decide_eq_false_iff_not] at h
    obtain ⟨⟨⟨⟨⟨⟨⟨⟨⟨⟨h1, h2⟩, h3⟩, h4⟩, h5⟩, h6⟩, h7⟩, h8⟩, h9⟩, h10⟩, h11⟩ := h
    simp [get_entity_type, h1, h2, h3, h4, h5, h6, h7, h8, h9, h10, h11]
  · intro ρ normalize pre truthy f thr anns st
    exact linkAllFrom_total normalize pre truthy f thr anns st

/-- Witness for C6 amended: the unknown category "gadget" maps to FOOD, and
a two-mention batch containing it completes with two rows. -/
theorem unknown_category_amended_witness :
    get_entity_type "gadget" = EntityType.FOOD ∧
    (∃ rows st',
      linkAllFrom (ρ := Unit) id (fun _ => ()) (fun _ => true)
          (fun a b => .ok ((fun _ _ => 0) a b)) 1 false ⟨[], []⟩
          [⟨"T1", 0, 0, 5, "gadget", "pizza", .NER⟩,
           ⟨"T2", 0, 0, 4, "unit", "gram", .NER⟩] = .ok (rows, st') ∧
        rows.length =
          [⟨"T1", 0, 0, 5, "gadget", "pizza", .NER⟩,
           (⟨"T2", 0, 0, 4, "unit", "gram", .NER⟩ : Annotation)].length) :=
  ⟨unknown_category_default_food_amended.1 "gadget" (by decide),
   unknown_category_default_food_amended.2 Unit id (fun _ => ())
     (fun _ => true) (fun _ _ => 0) 1
     [⟨"T1", 0, 0, 5, "gadget", "pizza", .NER⟩,
      ⟨"T2", 0, 0, 4, "unit", "gram", .NER⟩] ⟨[], []⟩⟩

/-- Counterexample for C9: the comparison representation is NOT always
computed at most once.  A record whose normalized label preprocesses to an
empty (Python-falsy) representation is re-preprocessed on every scan: the
first `link` call populates the field with the empty token set, and a
second `link` call over the resulting index still performs one record
preprocessing call (`itemPre = 1`) instead of reusing the stored value
(which would give `itemPre = 0` as the claim requires). -/
theorem representation_recomputed_counterexample :
    okState (link (ρ := Finset String)
        (fun t => jaccardPreprocess id t false) setTruthy
        (fun a b => .ok (jaccardSim a b)) (mkRat 1 2)
        [(.FOOD, [("", ⟨"L", "iri:l", "", none⟩)])] "x" .FOOD) =
      some [(.FOOD, [("", ⟨"L", "iri:l", "", some ∅⟩)])] ∧
    okStats (link (ρ := Finset String)
        (fun t => jaccardPreprocess id t false) setTruthy
        (fun a b => .ok (jaccardSim a b)) (mkRat 1 2)
        [(.FOOD, [("", ⟨"L", "iri:l", "", some ∅⟩)])] "x" .FOOD) =
      some ⟨1, 1, 1⟩ := by
  exact ⟨by rfl, by rfl⟩

/-- C9 amended: `similarity_representation` is the only record field the
linker ever mutates — every scan preserves key, label, IRI and normalized
label of every record (first conjunct) — and a stored representation is
reused without recomputation as long as it is Python-truthy: when every
record of the scanned sub-map carries a populated non-empty
representation, a scan performs zero record-preprocessing calls and
returns the sub-map unchanged (second conjunct).  A record whose computed
representation is empty, however, is re-preprocessed on every scan (see
the counterexample), each time storing the same value again. -/
theorem representation_mutation_amended :
    (∀ (ρ : Type) (pre : String → ρ) (truthy : ρ → Bool)
       (calcF : ρ → ρ → Except PyError ℚ) (thr : ℚ) (tp : ρ)
       (l : List (String × LabelWithIRI ρ))
       (best : Option (LabelWithIRI ρ)) (maxSim : ℚ) (res : ScanResult ρ),
       linkScan pre truthy calcF thr tp l best maxSim = .ok res →
       List.Forall₂ sameCore l res.items) ∧
    (∀ (ρ : Type) (pre : String → ρ) (truthy : ρ → Bool)
       (calcF : ρ → ρ → Except PyError ℚ) (thr : ℚ) (tp : ρ)
       (l : List (String × LabelWithIRI ρ))
       (best : Option (LabelWithIRI ρ)) (maxSim : ℚ) (res : ScanResult ρ),
       (∀ p ∈ l, ∃ r, (p.2).similarity_representation = some r ∧
           truthy r = true) →
       linkScan pre truthy calcF thr tp l best maxSim = .ok res →
       res.items = l ∧ res.preCalls = 0) := by
  constructor
  · intro ρ pre truthy calcF thr tp l best maxSim res h
    exact linkScan_sameCore pre truthy calcF thr tp l best maxSim res h
  · intro ρ pre truthy calcF thr tp l best maxSim res hall h
    exact linkScan_all_truthy pre truthy calcF thr tp l best maxSim res
      hall h

/-- Witness for C9 amended: a one-record scan preserves the record's
identity fields, and with a populated non-empty representation it performs
zero preprocessing calls and leaves the sub-map unchanged. -/
theorem representation_mutation_witness :
    List.Forall₂ sameCore
      [("k", (⟨"R", "iri:r", "k", some ()⟩ : LabelWithIRI Unit))]
      [("k", (⟨"R", "iri:r", "k", some ()⟩ : LabelWithIRI Unit))] ∧
    ((⟨none, [("k", ⟨"R", "iri:r", "k", some ()⟩)], 0, 1⟩ :
        ScanResult Unit).items =
      [("k", (⟨"R", "iri:r", "k", some ()⟩ : LabelWithIRI Unit))] ∧
     (⟨none, [("k", ⟨"R", "iri:r", "k", some ()⟩)], 0, 1⟩ :
        ScanResult Unit).preCalls = 0) := by
  constructor
  · exact representation_mutation_amended.1 Unit (fun _ => ())
      (fun _ => true) (fun _ _ => .ok 0) 1 ()
      [("k", ⟨"R", "iri:r", "k", some ()⟩)] none (-1)
      ⟨none, [("k", ⟨"R", "iri:r", "k", some ()⟩)], 0, 1⟩ (by rfl)
  · exact representation_mutation_amended.2 Unit (fun _ => ())
      (fun _ => true) (fun _ _ => .ok 0) 1 ()
      [("k", ⟨"R", "iri:r", "k", some ()⟩)] none (-1)
      ⟨none, [("k", ⟨"R", "iri:r", "k", some ()⟩)], 0, 1⟩
      (by
        rintro p hp
        simp only [List.mem_singleton] at hp
        subst hp
        exact ⟨(), rfl, rfl⟩)
      (by rfl)

/-- C10: the wordnet preprocessing path ignores its `normalize` argument
and never invokes the configured normalizer — the dispatched representation
is identical for any two normalizer functions and any two flag values
(first conjunct) — unlike the Jaccard and everygram paths, for which the
flag changes the result on a concrete input whose normalizer rewrites the
text (second and third conjuncts). -/
theorem wordnet_preprocess_ignores_normalize :
    (∀ (Syn : Type) (posTag : String → List (String × String))
       (wnSyn : String → String → List Syn)
       (n₁ n₂ : String → String) (text : String) (b₁ b₂ : Bool),
       preprocessDispatch .WORDNET n₁ posTag wnSyn text b₁ =
         preprocessDispatch .WORDNET n₂ posTag wnSyn text b₂) ∧
    (preprocessDispatch .JACCARD (fun _ => "aa bb") (fun _ => [])
        (fun _ _ => ([] : List Unit)) "cc" true ≠
      preprocessDispatch .JACCARD (fun _ => "aa bb") (fun _ => [])
        (fun _ _ => ([] : List Unit)) "cc" false) ∧
    (preprocessDispatch .EVERYGRAM (fun _ => "aa bb") (fun _ => [])
        (fun _ _ => ([] : List Unit)) "cc" true ≠
      preprocessDispatch .EVERYGRAM (fun _ => "aa bb") (fun _ => [])
        (fun _ _ => ([] : List Unit)) "cc" false) := by
  refine ⟨?_, ?_, ?_⟩
  · intro Syn posTag wnSyn n₁ n₂ text b₁ b₂
    rfl
  · decide
  · decide
